import Mathlib

/-!
Verification development for the symbolic-explanations repository.

The core under verification is the expression-normalization and
complexity-scoring pipeline:
  * `src/utils/utils.py` : `convert_symb` (normalization),
  * `src/utils/symb_reg_utils.py` : the clipped `exp` operator,
  * `src/plot_complexity_vs_rmse.py` : sentinel filtering, mean
    aggregation and the Pareto/elbow selection loop.

Machine floats are modelled as rationals (`ℚ`) for expression literals and
Pareto points, and as reals (`ℝ`) for the clipped `exp` operator.  The
external symbolic-algebra engine (sympy's parse-and-simplify) is out of
scope of the repository; normalization is therefore parameterized by an
arbitrary function `parseSimplify : String → SymExpr` standing for
`sympy.simplify (sympy.sympify (...))`.
-/

namespace SymbExpl

/-- A symbolic-algebra expression tree, mirroring the sympy expressions the
normalizer manipulates: floating-point literals (modelled as rationals),
integer literals, named symbols, and unary/binary operator applications. -/
inductive SymExpr where
  | float (val : ℚ)
  | intNum (val : ℤ)
  | var (name : String)
  | unary (op : String) (arg : SymExpr)
  | binary (op : String) (left right : SymExpr)
deriving DecidableEq, Repr

/-- `e.subs(Symbol v, r)`: substitute every occurrence of the symbol `v`
in the tree by the expression `r`. -/
def subsVar : SymExpr → String → SymExpr → SymExpr
  | .var n, v, r => if n = v then r else .var n
  | .float q, _, _ => .float q
  | .intNum n, _, _ => .intNum n
  | .unary op a, v, r => .unary op (subsVar a v r)
  | .binary op a b, v, r => .binary op (subsVar a v r) (subsVar b v r)

/-- Whether the symbol `v` occurs anywhere in the tree. -/
def occursVar (v : String) : SymExpr → Bool
  | .var n => n = v
  | .float _ => false
  | .intNum _ => false
  | .unary _ a => occursVar v a
  | .binary _ a b => occursVar v a || occursVar v b

/-- All floating-point literals of the tree, at every depth (the values
visited by `sympy.preorder_traversal` that are `sympy.core.numbers.Float`). -/
def floatLits : SymExpr → List ℚ
  | .float q => [q]
  | .intNum _ => []
  | .var _ => []
  | .unary _ a => floatLits a
  | .binary _ a b => floatLits a ++ floatLits b

/-- `round(q, d)`: round a literal to `d` decimal places, as the Python
builtin `round` does on the values the pipeline produces. -/
def roundTo (d : ℕ) (q : ℚ) : ℚ := (round (q * 10 ^ d) : ℚ) / 10 ^ d

/-- The rounding pass of `convert_symb` (utils.py lines 99-103): every
floating-point literal at every depth is replaced by its value rounded to
`d` decimals.  The Python loop substitutes each `Float` found by a
pre-order traversal of the tree; since the traversal visits every literal
and substitution replaces all occurrences of a value, its net effect is
this structural map. -/
def roundLit (d : ℕ) : SymExpr → SymExpr
  | .float q => .float (roundTo d q)
  | .intNum n => .intNum n
  | .var n => .var n
  | .unary op a => .unary op (roundLit d a)
  | .binary op a b => .binary op (roundLit d a) (roundLit d b)

/-- `sympy.count_ops`: the number of primitive operator applications
(non-leaf nodes) in an expression. -/
def count_ops : SymExpr → ℕ
  | .float _ => 0
  | .intNum _ => 0
  | .var _ => 0
  | .unary _ a => 1 + count_ops a
  | .binary _ a b => 1 + count_ops a + count_ops b

/-- A fitted symbolic model, tagged by its variant, carrying exactly what
`convert_symb` reads from it: the textual program (`str(symb._program)`
for a gplearn `SymbolicRegressor`), the expression string
(`str(symb.expression())` for the meta-model and pursuit wrappers), and,
for pursuit models, the learned projections
(`symb.metamodel.get_projections()`).  `unknown` stands for any other
input object. -/
inductive SymModel where
  | geneticProgram (program : String)
  | metaModel (expression : String)
  | pursuitModel (expression : String) (projections : List SymExpr)
  | unknown
deriving DecidableEq

/-- Step 1 of normalization (utils.py lines 63-70): dispatch on the model
variant to obtain the textual form, raising on any other variant. -/
def textualize : SymModel → Except String String
  | .geneticProgram prog => .ok prog
  | .metaModel e => .ok e
  | .pursuitModel e _ => .ok e
  | .unknown => .error "Unknown symbolic model"

/-- The projections read from a pursuit model; empty for other variants. -/
def projections : SymModel → List SymExpr
  | .pursuitModel _ ps => ps
  | _ => []

/-- `isinstance(symb, SymbolicPursuitModelWrapper)`. -/
def isPursuit : SymModel → Bool
  | .pursuitModel _ _ => true
  | _ => false

/-- `symb_str.replace("[", "").replace("]", "")` (utils.py line 88). -/
def stripBrackets (s : String) : String :=
  String.mk (s.data.filter (fun c => !(c == '[' || c == ']')))

/-- The pursuit back-substitution loop (utils.py lines 93-98): for each
projection `p` at index `i` (in index order), substitute the symbol
`P(i+1)` by `p` throughout the tree. -/
def substProjections (e : SymExpr) (projs : List SymExpr) : SymExpr :=
  projs.enum.foldl (fun acc ip => subsVar acc ("P" ++ toString (ip.1 + 1)) ip.2) e

/-- The result of normalization: either a degraded raw string (the
length-guard path) or a converted expression tree. -/
inductive ConvResult where
  | raw (text : String)
  | expr (e : SymExpr)
deriving DecidableEq

/-- Step 4 of normalization (utils.py lines 90-92): when `n_dim == 1`,
substitute the symbol `X0` by `x`. -/
def applyRename (n_dim : Option ℕ) (e : SymExpr) : SymExpr :=
  if n_dim = some 1 then subsVar e "X0" (.var "x") else e

/-- Step 5 of normalization (utils.py lines 93-98): for pursuit models,
back-substitute the learned projections. -/
def applyPursuit (symb : SymModel) (e : SymExpr) : SymExpr :=
  if isPursuit symb then substProjections e (projections symb) else e

/-- Step 6 of normalization (utils.py lines 99-103): when `n_decimals` is
truthy (Python `if n_decimals:`, so both `0` and `None` skip), round
every float literal at every depth. -/
def applyRounding (n_decimals : Option ℕ) (e : SymExpr) : SymExpr :=
  match n_decimals with
  | some d => if d = 0 then e else roundLit d e
  | none => e

/-- The under-threshold part of `convert_symb` (utils.py lines 87-105):
parse and simplify the bracket-stripped text, rename `X0` to `x` when
`n_dim == 1`, back-substitute pursuit projections, then round. -/
def convertPipeline (parseSimplify : String → SymExpr) (symb : SymModel)
    (n_dim : Option ℕ) (n_decimals : Option ℕ) (symb_str : String) : SymExpr :=
  applyRounding n_decimals
    (applyPursuit symb (applyRename n_dim (parseSimplify (stripBrackets symb_str))))

/-- Steps 2-6 on an already-textualized model: the length guard (utils.py
lines 81-85) returning the raw string as a degraded result, else the
parse/rename/substitute/round pipeline. -/
def normalizeText (parseSimplify : String → SymExpr) (symb : SymModel)
    (n_dim : Option ℕ) (n_decimals : Option ℕ) (symb_str : String) : ConvResult :=
  if symb_str.length > 500 then
    .raw symb_str
  else
    .expr (convertPipeline parseSimplify symb n_dim n_decimals symb_str)

/-- `convert_symb(symb, n_dim, n_decimals)` from `src/utils/utils.py`
(lines 47-105), parameterized by the external algebra engine
`parseSimplify` (standing for
`sympy.simplify(sympy.sympify(..., locals=converter))`):
1. dispatch on the model variant for the textual form (raising on an
   unknown variant);
2. if the text exceeds 500 characters, return it raw;
3. strip brackets, parse and simplify;
4. if `n_dim == 1`, substitute `X0` by `x`;
5. for pursuit models, back-substitute the projections;
6. if `n_decimals` is truthy, round every float literal to `n_decimals`
   decimals. -/
def convert_symb (parseSimplify : String → SymExpr) (symb : SymModel)
    (n_dim : Option ℕ) (n_decimals : Option ℕ) : Except String ConvResult :=
  match textualize symb with
  | .error msg => .error msg
  | .ok symb_str => .ok (normalizeText parseSimplify symb n_dim n_decimals symb_str)

/-- Modelled from the spec: the HPOBench symbolic-explanation runner that
writes `complexity.csv` (the producer read back by
`plot_complexity_vs_rmse.py`) is not among the source files; per §4.3 of
the spec, the complexity scorer maps a degraded raw-text normalization
result to the sentinel value `-1` ("complexity unknown") and an
expression result to its primitive-operation count. -/
def score : ConvResult → ℤ
  | .raw _ => -1
  | .expr e => (count_ops e : ℤ)

/-- The sentinel filter of `plot_complexity_vs_rmse.py` line 72:
`df_complexity = df_complexity[df_complexity["program_operations"] != -1]`. -/
def filterComplexity (ops : List ℤ) : List ℤ :=
  ops.filter (fun o => o != -1)

/-- The aggregation of `plot_complexity_vs_rmse.py` line 76:
`df_complexity["program_operations"].mean(axis=0)`, taken after the
sentinel filter of line 72. -/
def complexityMean (ops : List ℤ) : ℚ :=
  (((filterComplexity ops).sum : ℚ)) / ((filterComplexity ops).length : ℚ)

/-- One aggregated point of the parsimony sweep
(`plot_complexity_vs_rmse.py`): a mean complexity and a mean test RMSE. -/
structure ParetoPoint where
  complexity : ℚ
  rmse : ℚ
deriving DecidableEq, Repr

/-- Stable insertion into a list sorted by `le`. -/
def insertLe (le : ParetoPoint → ParetoPoint → Bool) (x : ParetoPoint) :
    List ParetoPoint → List ParetoPoint
  | [] => [x]
  | y :: ys => if le x y then x :: y :: ys else y :: insertLe le x ys

/-- `df.sort_values(key)`: sort the rows by the given key. -/
def sortLe (le : ParetoPoint → ParetoPoint → Bool) (ps : List ParetoPoint) :
    List ParetoPoint :=
  ps.foldr (insertLe le) []

/-- Lines 92-93 of `plot_complexity_vs_rmse.py`: sort by complexity, then
sort the result by RMSE (the second sort dominates). -/
def rmseSorted (ps : List ParetoPoint) : List ParetoPoint :=
  sortLe (fun a b => decide (a.rmse ≤ b.rmse))
    (sortLe (fun a b => decide (a.complexity ≤ b.complexity)) ps)

/-- `df_sorted.iloc[0]`: the minimum-RMSE point (`x_lower_right`,
`y_lower_right`). -/
def lowerRight (ps : List ParetoPoint) : ParetoPoint :=
  (rmseSorted ps).headD ⟨0, 0⟩

/-- `df_sorted.iloc[-1]`: the maximum-RMSE point (`x_upper_left`,
`y_upper_left`). -/
def upperLeft (ps : List ParetoPoint) : ParetoPoint :=
  (rmseSorted ps).getLastD ⟨0, 0⟩

/-- Line 100: `slope = (y_lower_right - y_upper_left) / (x_lower_right -
x_upper_left)`, the hull slope between the two RMSE extremes. -/
def elbowSlope (ps : List ParetoPoint) : ℚ :=
  ((lowerRight ps).rmse - (upperLeft ps).rmse) /
    ((lowerRight ps).complexity - (upperLeft ps).complexity)

/-- Lines 106-107: whether `q` lies strictly below the line of the given
slope through `p` (`row2["rmse_test"] < line_y`). -/
def isBelowLine (slope : ℚ) (p q : ParetoPoint) : Bool :=
  decide (q.rmse < slope * (q.complexity - p.complexity) + p.rmse)

/-- Lines 105-109: whether any point of the dataset lies strictly below
the line of the given slope through `p`. -/
def pointsBelow (slope : ℚ) (ps : List ParetoPoint) (p : ParetoPoint) : Bool :=
  ps.any (isBelowLine slope p)

/-- Lines 100-112: the elbow selection — the first point (in the
dataset's iteration order) such that no point lies strictly below the
hull-slope line through it; `none` when no point qualifies
(`selected_point = None`). -/
def selectedPoint (ps : List ParetoPoint) : Option ParetoPoint :=
  ps.find? (fun p => !pointsBelow (elbowSlope ps) ps p)

/-- The clipped `exp` operator of `src/utils/symb_reg_utils.py` (lines
6-9): `np.minimum(np.exp(x), 100000)`, with machine floats modelled as
reals. -/
noncomputable def exp (x : ℝ) : ℝ := min (Real.exp x) 100000

/-- The element-wise action of the clipped `exp` on an input array. -/
noncomputable def expArr (xs : List ℝ) : List ℝ := xs.map exp

/-- A concrete value of the external algebra engine for tests: on the
texts used with it here, sympy's parse-and-simplify returns the bare
symbol `X0`. -/
def parseVarX0 : String → SymExpr := fun _ => .var "X0"

/-- A concrete value of the external algebra engine for tests: on the
text `"P1"`, sympy's parse-and-simplify returns the bare symbol `P1`. -/
def parseVarP1 : String → SymExpr := fun _ => .var "P1"

/-- A concrete value of the external algebra engine for tests: the
parse result is the single floating-point literal `1.23`. -/
def parseFloatLit : String → SymExpr := fun _ => .float (123 / 100)

/-- A synthetic 501-character textual program, exceeding the length
threshold of the guard. -/
def longProgram : String := String.mk (List.replicate 501 'a')

/-- The three Pareto points of the elbow-selection example. -/
def elbowExamplePts : List ParetoPoint := [⟨2, 3/10⟩, ⟨5, 1/10⟩, ⟨10, 2/25⟩]

lemma roundTo_roundTo (d : ℕ) (q : ℚ) : roundTo d (roundTo d q) = roundTo d q := by
  have h10 : ((10 : ℚ) ^ d) ≠ 0 := by positivity
  unfold roundTo
  rw [div_mul_cancel₀ _ h10, round_intCast]

lemma mem_floatLits_roundLit (d : ℕ) (e : SymExpr) (q : ℚ)
    (h : q ∈ floatLits (roundLit d e)) : roundTo d q = q := by
  induction e with
  | float v =>
    simp only [roundLit, floatLits, List.mem_singleton] at h
    rw [h, roundTo_roundTo]
  | intNum v => simp [roundLit, floatLits] at h
  | var n => simp [roundLit, floatLits] at h
  | unary op a iha => exact iha h
  | binary op a b iha ihb =>
    simp only [roundLit, floatLits, List.mem_append] at h
    rcases h with h | h
    · exact iha h
    · exact ihb h

lemma roundLit_eq_self (d : ℕ) (e : SymExpr)
    (h : ∀ q ∈ floatLits e, roundTo d q = q) : roundLit d e = e := by
  induction e with
  | float v => simp [roundLit, h v (by simp [floatLits])]
  | intNum v => rfl
  | var n => rfl
  | unary op a iha =>
    simp only [roundLit, SymExpr.unary.injEq, true_and]
    exact iha fun q hq => h q (by simpa [floatLits] using hq)
  | binary op a b iha ihb =>
    simp only [roundLit, SymExpr.binary.injEq, true_and]
    refine ⟨iha fun q hq => h q ?_, ihb fun q hq => h q ?_⟩
    · simp [floatLits, hq]
    · simp [floatLits, hq]

lemma occursVar_roundLit (v : String) (d : ℕ) (e : SymExpr) :
    occursVar v (roundLit d e) = occursVar v e := by
  induction e with
  | float q => rfl
  | intNum n => rfl
  | var n => rfl
  | unary op a iha => simpa [roundLit, occursVar] using iha
  | binary op a b iha ihb => simp [roundLit, occursVar, iha, ihb]

lemma occursVar_subsVar (v w : String) (e r : SymExpr)
    (he : occursVar v e = false) (hr : occursVar v r = false) :
    occursVar v (subsVar e w r) = false := by
  induction e with
  | float q => rfl
  | intNum n => rfl
  | var n =>
    by_cases hn : n = w
    · simp [subsVar, hn, hr]
    · simpa [subsVar, hn] using he
  | unary op a iha =>
    simp only [occursVar] at he
    simpa [subsVar, occursVar] using iha he
  | binary op a b iha ihb =>
    simp only [occursVar, Bool.or_eq_false_iff] at he
    simp [subsVar, occursVar, iha he.1, ihb he.2]

lemma occursVar_subsVar_self (v : String) (e r : SymExpr)
    (hr : occursVar v r = false) :
    occursVar v (subsVar e v r) = false := by
  induction e with
  | float q => rfl
  | intNum n => rfl
  | var n =>
    by_cases hn : n = v
    · simp [subsVar, hn, hr]
    · simp [subsVar, hn, occursVar, hn]
  | unary op a iha => simpa [subsVar, occursVar] using iha
  | binary op a b iha ihb => simp [subsVar, occursVar, iha, ihb]

lemma occursVar_foldl_subs (v : String) (l : List (ℕ × SymExpr)) (e : SymExpr)
    (he : occursVar v e = false)
    (hl : ∀ ip ∈ l, occursVar v ip.2 = false) :
    occursVar v
      (l.foldl (fun acc ip => subsVar acc ("P" ++ toString (ip.1 + 1)) ip.2) e)
      = false := by
  induction l generalizing e with
  | nil => simpa using he
  | cons hd tl ih =>
    simp only [List.foldl_cons]
    exact ih (subsVar e ("P" ++ toString (hd.1 + 1)) hd.2)
      (occursVar_subsVar v ("P" ++ toString (hd.1 + 1)) e hd.2 he
        (hl hd (List.mem_cons_self hd tl)))
      (fun ip hip => hl ip (List.mem_cons_of_mem hd hip))

lemma occursVar_substProjections (v : String) (projs : List SymExpr) (e : SymExpr)
    (he : occursVar v e = false)
    (hp : ∀ pr ∈ projs, occursVar v pr = false) :
    occursVar v (substProjections e projs) = false := by
  unfold substProjections
  refine occursVar_foldl_subs v _ e he fun ip hip => hp ip.2 ?_
  have := List.mem_enum_iff_getElem?.mp hip
  exact List.getElem?_mem this

lemma exists_min_rmse (f : ParetoPoint → ℚ) :
    ∀ (ps : List ParetoPoint), ps ≠ [] → ∃ m ∈ ps, ∀ q ∈ ps, f m ≤ f q := by
  intro ps
  induction ps with
  | nil => intro h; exact absurd rfl h
  | cons x xs ih =>
    intro _
    rcases List.eq_nil_or_concat xs with hnil | _
    case inl =>
      subst hnil
      exact ⟨x, by simp, by simp⟩
    all_goals
    by_cases hx : xs = []
    · subst hx; exact ⟨x, by simp, by simp⟩
    · obtain ⟨m, hm, hmin⟩ := ih hx
      by_cases hle : f x ≤ f m
      · refine ⟨x, by simp, ?_⟩
        intro q hq
        rcases List.mem_cons.mp hq with h | h
        · simp [h]
        · exact le_trans hle (hmin q h)
      · refine ⟨m, by simp [hm], ?_⟩
        intro q hq
        rcases List.mem_cons.mp hq with h | h
        · subst h; exact le_of_not_le hle
        · exact hmin q h

set_option maxRecDepth 4000 in
lemma longProgram_long : 500 < longProgram.length := by decide

lemma convert_symb_raw_of_long (p : String → SymExpr) (symb : SymModel)
    (nd ndec : Option ℕ) (s : String)
    (ht : textualize symb = .ok s) (hlen : 500 < s.length) :
    convert_symb p symb nd ndec = .ok (.raw s) := by
  simp only [convert_symb, ht, normalizeText, if_pos hlen]

lemma convert_symb_ok_expr_inv (p : String → SymExpr) (symb : SymModel)
    (nd ndec : Option ℕ) (e : SymExpr)
    (h : convert_symb p symb nd ndec = .ok (.expr e)) :
    ∃ s, textualize symb = .ok s ∧ ¬ 500 < s.length ∧
      e = convertPipeline p symb nd ndec s := by
  have hts : ∃ s, textualize symb = .ok s := by
    cases symb
    case unknown => simp [convert_symb, textualize] at h
    all_goals exact ⟨_, rfl⟩
  obtain ⟨s, hts⟩ := hts
  simp only [convert_symb, hts, Except.ok.injEq] at h
  unfold normalizeText at h
  by_cases hlen : 500 < s.length
  · rw [if_pos hlen] at h
    exact absurd h (by simp)
  · rw [if_neg hlen] at h
    injection h with h'
    exact ⟨s, hts, hlen, h'.symm⟩

lemma applyRounding_of_ne_zero (d : ℕ) (hd : d ≠ 0) (e : SymExpr) :
    applyRounding (some d) e = roundLit d e := by
  simp [applyRounding, hd]

lemma occursVar_applyRounding (v : String) (ndec : Option ℕ) (e : SymExpr) :
    occursVar v (applyRounding ndec e) = occursVar v e := by
  rcases ndec with _ | d
  · rfl
  · by_cases hd : d = 0
    · simp [applyRounding, hd]
    · simp [applyRounding, hd, occursVar_roundLit]

lemma occursVar_X0_pipeline (p : String → SymExpr) (symb : SymModel)
    (ndec : Option ℕ) (s : String)
    (hp : ∀ pr ∈ projections symb, occursVar "X0" pr = false) :
    occursVar "X0" (convertPipeline p symb (some 1) ndec s) = false := by
  have h1 : occursVar "X0"
      (applyRename (some 1) (p (stripBrackets s))) = false := by
    rw [applyRename, if_pos rfl]
    exact occursVar_subsVar_self "X0" _ _ rfl
  have h2 : occursVar "X0"
      (applyPursuit symb (applyRename (some 1) (p (stripBrackets s)))) = false := by
    unfold applyPursuit
    split
    · exact occursVar_substProjections "X0" _ _ h1 hp
    · exact h1
  unfold convertPipeline
  rw [occursVar_applyRounding]
  exact h2

/-- C9: for every input to normalization that is none of the three
fitted-model variants, `convert_symb` fails with the unknown-model error
— for every engine, `n_dim` and `n_decimals`, so before any
textualization, parsing or other processing — and the error propagates
to the caller instead of being turned into a degraded result. -/
theorem unknown_model_raises (p : String → SymExpr) (nd ndec : Option ℕ) :
    convert_symb p SymModel.unknown nd ndec = .error "Unknown symbolic model" := rfl

/-- C10: calling `convert_symb` with `n_decimals = 0` performs no
rounding at all: for every engine, model and `n_dim` its result is
identical to the call with `n_decimals` absent, because the rounding
step runs only when `n_decimals` is truthy. -/
theorem zero_decimals_no_rounding (p : String → SymExpr) (symb : SymModel)
    (nd : Option ℕ) :
    convert_symb p symb nd (some 0) = convert_symb p symb nd none := rfl

/-- C4: for every fitted model of a known variant whose textual form is
longer than 500 characters, `convert_symb` returns the raw program text
itself, unchanged, as a degraded result; the result does not depend on
the parsing engine, `n_dim` or `n_decimals` (no parse, rename,
substitution or rounding is attempted), and this path returns normally
rather than raising. -/
theorem length_guard_returns_raw (p : String → SymExpr) (symb : SymModel)
    (s : String) (nd ndec : Option ℕ)
    (ht : textualize symb = .ok s) (hlen : 500 < s.length) :
    convert_symb p symb nd ndec = .ok (.raw s) :=
  convert_symb_raw_of_long p symb nd ndec s ht hlen

/-- Witness for C4 at a concrete 501-character meta-model. -/
theorem length_guard_returns_raw_witness :
    convert_symb parseVarX0 (SymModel.metaModel longProgram) none none
      = .ok (.raw longProgram) :=
  length_guard_returns_raw parseVarX0 (SymModel.metaModel longProgram) longProgram
    none none rfl longProgram_long

/-- C1: for every fitted model whose raw textual program exceeds 500
characters, normalization yields the degraded raw-text result without
raising, the complexity scorer assigns it the sentinel
`program_operations` value `-1`, and the downstream aggregation of
`plot_complexity_vs_rmse.py` excludes `-1`-valued records from the
complexity mean. -/
theorem oversized_scores_sentinel_and_is_excluded (p : String → SymExpr)
    (symb : SymModel) (s : String) (nd ndec : Option ℕ)
    (ht : textualize symb = .ok s) (hlen : 500 < s.length) :
    convert_symb p symb nd ndec = .ok (.raw s)
    ∧ score (.raw s) = -1
    ∧ ∀ ops : List ℤ, complexityMean (-1 :: ops) = complexityMean ops := by
  refine ⟨convert_symb_raw_of_long p symb nd ndec s ht hlen, rfl, ?_⟩
  intro ops
  simp [complexityMean, filterComplexity, List.filter_cons]

/-- Witness for C1 at a concrete 501-character genetic program and a
concrete record list. -/
theorem oversized_scores_sentinel_and_is_excluded_witness :
    convert_symb parseVarX0 (SymModel.geneticProgram longProgram) none none
      = .ok (.raw longProgram)
    ∧ score (.raw longProgram) = -1
    ∧ complexityMean [-1, 3, 5] = complexityMean [3, 5] := by
  obtain ⟨h1, h2, h3⟩ := oversized_scores_sentinel_and_is_excluded parseVarX0
    (SymModel.geneticProgram longProgram) longProgram none none rfl longProgram_long
  exact ⟨h1, h2, h3 [3, 5]⟩

/-- C2: on exactly the three Pareto points `(2, 0.30)`, `(5, 0.10)`,
`(10, 0.08)`, the selector takes the hull slope between the
minimum-RMSE point `(10, 0.08)` and the maximum-RMSE point `(2, 0.30)`
— namely `-0.0275 = -11/400` — and, testing each candidate in iteration
order with the strictly-below comparison, selects the point
`(5, 0.10)`. -/
theorem elbow_example_selects :
    lowerRight elbowExamplePts = ⟨10, 2/25⟩
    ∧ upperLeft elbowExamplePts = ⟨2, 3/10⟩
    ∧ elbowSlope elbowExamplePts = -11/400
    ∧ selectedPoint elbowExamplePts = some ⟨5, 1/10⟩ := by
  refine ⟨?_, ?_, ?_, ?_⟩ <;>
    norm_num [elbowExamplePts, selectedPoint, pointsBelow, isBelowLine, elbowSlope,
      lowerRight, upperLeft, rmseSorted, sortLe, insertLe, List.find?]

/-- C3: for every non-empty list of Pareto points whose minimum-RMSE and
maximum-RMSE points have distinct complexities (so the hull slope is
well defined), at least one point qualifies under the non-domination
test, and the elbow selection returns some point of the list rather
than no selection. -/
theorem elbow_nonempty_selects (ps : List ParetoPoint) (hne : ps ≠ [])
    (hdist : (lowerRight ps).complexity ≠ (upperLeft ps).complexity) :
    ∃ q, selectedPoint ps = some q ∧ q ∈ ps := by
  obtain ⟨m, hm, hmin⟩ :=
    exists_min_rmse (fun r => r.rmse - elbowSlope ps * r.complexity) ps hne
  have hpb : pointsBelow (elbowSlope ps) ps m = false := by
    simp only [pointsBelow, List.any_eq_false, isBelowLine, decide_eq_true_eq]
    intro q hq
    have h := hmin q hq
    have hexp : elbowSlope ps * (q.complexity - m.complexity) + m.rmse
        = elbowSlope ps * q.complexity - elbowSlope ps * m.complexity + m.rmse := by
      ring
    rw [hexp]
    intro hlt
    simp only at h
    linarith
  cases hfind : ps.find? fun r => !pointsBelow (elbowSlope ps) ps r with
  | none =>
    have := List.find?_eq_none.mp hfind m hm
    simp [hpb] at this
  | some r =>
    exact ⟨r, by simpa only [selectedPoint] using hfind,
      List.mem_of_find?_eq_some hfind⟩

/-- Witness for C3 at a concrete two-point dataset. -/
theorem elbow_nonempty_selects_witness :
    (selectedPoint [⟨1, 1⟩, ⟨3, 0⟩]).isSome = true := by
  obtain ⟨q, hq, _⟩ := elbow_nonempty_selects [⟨1, 1⟩, ⟨3, 0⟩] (by simp)
    (by norm_num [lowerRight, upperLeft, rmseSorted, sortLe, insertLe])
  rw [hq]
  rfl

/-- C5: the clipped `exp` operator returns `min (Real.exp x) 100000`
element-wise, so its output never exceeds `100000` (in particular it is
never infinite), and at input `10^10` it returns exactly `100000`. -/
theorem exp_clipped_safe :
    (∀ x : ℝ, exp x = min (Real.exp x) 100000)
    ∧ (∀ x : ℝ, exp x ≤ 100000)
    ∧ expArr [(10 : ℝ) ^ 10] = [100000] := by
  refine ⟨fun x => rfl, fun x => min_le_right _ _, ?_⟩
  simp only [expArr, List.map_cons, List.map_nil, List.cons.injEq, and_true]
  unfold exp
  apply min_eq_right
  have h := Real.add_one_le_exp ((10 : ℝ) ^ 10)
  have h10 : (100000 : ℝ) ≤ (10 : ℝ) ^ 10 + 1 := by norm_num
  linarith

/-- C6: for every model whose text stays under the length threshold, if
a nonzero (truthy) decimal precision `d` was requested, then every
floating-point literal at every depth of the expression returned by
`convert_symb` — including literals introduced by the pursuit
back-substitution of step 5, which runs before the rounding of step 6 —
is rounded to `d` decimal places. -/
theorem rounding_reaches_all_depths (p : String → SymExpr) (symb : SymModel)
    (nd : Option ℕ) (d : ℕ) (e : SymExpr) (hd : d ≠ 0)
    (h : convert_symb p symb nd (some d) = .ok (.expr e)) :
    ∀ q ∈ floatLits e, roundTo d q = q := by
  obtain ⟨s, ht, hlen, rfl⟩ := convert_symb_ok_expr_inv p symb nd (some d) e h
  intro q hq
  rw [convertPipeline, applyRounding_of_ne_zero d hd] at hq
  exact mem_floatLits_roundLit d _ q hq

/-- Witness for C6 at a concrete engine value and precision. -/
theorem rounding_reaches_all_depths_witness : roundTo 2 (123/100) = 123/100 := by
  have hconv : convert_symb parseFloatLit (SymModel.geneticProgram "f") none (some 2)
      = .ok (.expr (.float (123/100))) := by
    have hlen : ¬ 500 < ("f".length) := by decide
    simp only [convert_symb, textualize, normalizeText, if_neg hlen, convertPipeline,
      parseFloatLit, applyRename, applyPursuit, applyRounding, isPursuit, roundLit]
    norm_num [roundTo, round_eq]
  exact rounding_reaches_all_depths parseFloatLit (SymModel.geneticProgram "f") none 2
    (SymExpr.float (123/100)) (by decide) hconv (123/100) (by simp [floatLits])

/-- C7, counterexample: for a pursuit model whose sole projection is the
expression `X0`, normalizing the expression `P1` with `n_dim = 1` yields
the expression `X0` — the symbol `X0` remains in the returned tree,
because the `X0 → x` rename (step 4) runs before the projection
back-substitution (step 5), which can reintroduce `X0`. -/
theorem rename_pursuit_counterexample :
    convert_symb parseVarP1 (SymModel.pursuitModel "P1" [SymExpr.var "X0"])
        (some 1) none
      = .ok (.expr (.var "X0"))
    ∧ occursVar "X0" (SymExpr.var "X0") = true := ⟨rfl, rfl⟩

/-- C7, amended: for `n_dim = 1`, no symbol `X0` remains in the returned
expression provided every pursuit projection that is back-substituted is
itself free of `X0` (vacuously so for the genetic-program and meta-model
variants, whose projection list is empty); for `n_dim = 2` the rename
step is the identity, and the returned expression — for every model
variant, pursuit models included, and every `n_decimals` — is exactly
the pipeline applied with no rename at all (parse, pursuit
back-substitution and rounding only), so `X0` and `X1` are left
unrenamed. -/
theorem rename_one_dim_amended (p : String → SymExpr) (symb : SymModel)
    (ndec : Option ℕ) :
    ((∀ pr ∈ projections symb, occursVar "X0" pr = false) →
      ∀ e, convert_symb p symb (some 1) ndec = .ok (.expr e) →
        occursVar "X0" e = false)
    ∧ (∀ e : SymExpr, applyRename (some 2) e = e)
    ∧ (∀ s, textualize symb = .ok s → ¬ 500 < s.length →
        convert_symb p symb (some 2) ndec
          = .ok (.expr (applyRounding ndec
              (applyPursuit symb (p (stripBrackets s)))))) := by
  refine ⟨?_, ?_, ?_⟩
  · intro hp e h
    obtain ⟨s, ht, hlen, rfl⟩ := convert_symb_ok_expr_inv p symb (some 1) ndec e h
    exact occursVar_X0_pipeline p symb ndec s hp
  · intro e
    simp [applyRename]
  · intro s ht hlen
    simp only [convert_symb, ht, normalizeText, if_neg hlen, convertPipeline]
    simp [applyRename]

/-- Witness for C7's amended statement at a concrete genetic program,
with a rounding precision requested. -/
theorem rename_one_dim_amended_witness :
    occursVar "X0" (SymExpr.var "x") = false
    ∧ convert_symb parseVarX0 (SymModel.geneticProgram "X0") (some 2) (some 3)
        = .ok (.expr (applyRounding (some 3)
            (applyPursuit (SymModel.geneticProgram "X0")
              (parseVarX0 (stripBrackets "X0"))))) :=
  ⟨(rename_one_dim_amended parseVarX0 (SymModel.geneticProgram "X0") (some 3)).1
      (by simp [projections]) (SymExpr.var "x") rfl,
    (rename_one_dim_amended parseVarX0 (SymModel.geneticProgram "X0") (some 3)).2.2
      "X0" rfl (by decide)⟩

/-- C8: rounding is idempotent — for every expression all of whose
floating-point literals are already rounded to precision `d`, the
rounding pass at `d` is a no-op; equivalently, applying the pass twice
with the same precision yields the same literals as applying it once. -/
theorem rounding_idempotent (d : ℕ) (e : SymExpr) :
    ((∀ q ∈ floatLits e, roundTo d q = q) → roundLit d e = e)
    ∧ roundLit d (roundLit d e) = roundLit d e :=
  ⟨roundLit_eq_self d e, roundLit_eq_self d (roundLit d e) (mem_floatLits_roundLit d e)⟩

/-- Witness for C8 at a concrete already-rounded expression. -/
theorem rounding_idempotent_witness :
    roundLit 3 (SymExpr.binary "add" (.float (1/2)) (.var "X0"))
      = SymExpr.binary "add" (.float (1/2)) (.var "X0") := by
  refine (rounding_idempotent 3 (SymExpr.binary "add" (.float (1/2)) (.var "X0"))).1 ?_
  intro q hq
  simp only [floatLits, List.append_nil, List.mem_singleton] at hq
  rw [hq]
  norm_num [roundTo, round_eq]

end SymbExpl
